import Mathlib

/-!
Shallow embedding of `src/monitor_fs.cpp` (an inotify-based directory watcher).

Modelling conventions:
* The read buffer is a `List Nat` of byte values; `byteAt` reads a byte and
  returns 0 for indices beyond the modelled contents (standing for the
  zero-filled remainder of the allocation).  Where a claim depends on bytes
  beyond `bytesRead`, the buffer list is made long enough that every byte the
  program touches is explicit.
* `struct inotify_event` is 16 bytes on the target platform: four 32-bit
  fields `wd`, `mask`, `cookie`, `len`, followed by `len` name bytes.
  Multi-byte fields are little-endian.
* The inner `while (buffer < bufferEnd)` loop of `main` is `segmentLoop`,
  defined by well-founded recursion on the remaining distance to the buffer
  end (this is exactly the C loop: no bounds check beyond `buffer < bufferEnd`).
  `segmentLoopFuel` is a fuel-indexed version used for concrete evaluation;
  their agreement for fuel `n` is the termination argument of the loop.
* The outer `while (!gblExitRequested)` loop of `main` is `runLoop`, driven by
  a script of observations: the cancellation-flag value seen by the `while`
  condition and the outcome of each `read` call.  `errno` is explicit state;
  a successful `read` leaves it unchanged, exactly as on Linux.
* The post-loop reporting code (lines 143-156 of the source) is
  `computeFailure`; cleanup (lines 158-160) runs unconditionally.
-/

namespace MonitorFs

/-- The Linux `EINTR` error number. -/
def EINTR : Nat := 4

/-- `sizeof(struct inotify_event)`: four 32-bit fields (`wd`, `mask`, `cookie`,
`len`), no padding. -/
def headerSize : Nat := 16

/-- A byte of the buffer; indices beyond the modelled contents read as 0. -/
def byteAt (buf : List Nat) (i : Nat) : Nat := (buf[i]?).getD 0

/-- Little-endian 32-bit load, as performed by accessing a `uint32_t` field of
a `struct inotify_event` overlaid on the buffer. -/
def readU32 (buf : List Nat) (off : Nat) : Nat :=
  byteAt buf off + 256 * byteAt buf (off + 1) + 65536 * byteAt buf (off + 2) +
    16777216 * byteAt buf (off + 3)

/-- `sizeof(struct inotify_event) + iNotifyEvent->len` for the record the
inner loop sees at offset `off`: the amount by which line 139 of the source
advances the cursor.  The `len` field sits at byte offset 12 of the header. -/
def recordLen (buf : List Nat) (off : Nat) : Nat := headerSize + readU32 buf (off + 12)

lemma headerSize_le_recordLen (buf : List Nat) (off : Nat) :
    headerSize ≤ recordLen buf off :=
  Nat.le_add_right _ _

lemma recordLen_pos (buf : List Nat) (off : Nat) : 0 < recordLen buf off := by
  unfold recordLen headerSize
  omega

/-- The inner segmentation loop of `main` (`while (buffer < bufferEnd)`,
lines 135-140): starting at `off`, repeatedly dispatch the record at the
cursor and advance by `recordLen`.  Returns the `(offset, length)` pair of
every record dispatched, in dispatch order.  Note the source performs no
check that a full header or the full record fits before the buffer end. -/
def segmentLoop (buf : List Nat) (n off : Nat) : List (Nat × Nat) :=
  if _h : off < n then
    (off, recordLen buf off) :: segmentLoop buf n (off + recordLen buf off)
  else []
termination_by n - off
decreasing_by
  have := recordLen_pos buf off
  omega

/-- The offset at which the inner loop finally leaves `while (buffer < bufferEnd)`. -/
def segmentEnd (buf : List Nat) (n off : Nat) : Nat :=
  if _h : off < n then segmentEnd buf n (off + recordLen buf off) else off
termination_by n - off
decreasing_by
  have := recordLen_pos buf off
  omega

/-- Fuel-indexed version of `segmentLoop`, for termination analysis and for
concrete evaluation (well-founded definitions do not reduce in the kernel). -/
def segmentLoopFuel (buf : List Nat) (n : Nat) : Nat → Nat → List (Nat × Nat)
  | 0, _ => []
  | fuel + 1, off =>
    if off < n then
      (off, recordLen buf off) :: segmentLoopFuel buf n fuel (off + recordLen buf off)
    else []

/-- Fuel-indexed version of `segmentEnd`. -/
def segmentEndFuel (buf : List Nat) (n : Nat) : Nat → Nat → Nat
  | 0, off => off
  | fuel + 1, off =>
    if off < n then segmentEndFuel buf n fuel (off + recordLen buf off) else off

lemma segmentLoopFuel_eq (buf : List Nat) (n : Nat) :
    ∀ fuel off, n - off ≤ fuel → segmentLoopFuel buf n fuel off = segmentLoop buf n off := by
  intro fuel
  induction fuel with
  | zero =>
    intro off h
    rw [segmentLoop]
    have : ¬ off < n := by omega
    simp [segmentLoopFuel, this]
  | succ fuel ih =>
    intro off h
    rw [segmentLoop]
    by_cases hlt : off < n
    · have := recordLen_pos buf off
      simp only [segmentLoopFuel, if_pos hlt, dif_pos hlt]
      rw [ih (off + recordLen buf off) (by omega)]
    · simp [segmentLoopFuel, hlt]

lemma segmentEndFuel_eq (buf : List Nat) (n : Nat) :
    ∀ fuel off, n - off ≤ fuel → segmentEndFuel buf n fuel off = segmentEnd buf n off := by
  intro fuel
  induction fuel with
  | zero =>
    intro off h
    rw [segmentEnd]
    have : ¬ off < n := by omega
    simp [segmentEndFuel, this]
  | succ fuel ih =>
    intro off h
    rw [segmentEnd]
    by_cases hlt : off < n
    · have := recordLen_pos buf off
      simp only [segmentEndFuel, if_pos hlt, dif_pos hlt]
      rw [ih (off + recordLen buf off) (by omega)]
    · simp [segmentEndFuel, hlt]

/-- Executable form of the inner loop run from offset 0 (fuel `n` suffices,
see `segmentLoopFuel_eq`). -/
def segment (buf : List Nat) (n : Nat) : List (Nat × Nat) :=
  segmentLoopFuel buf n n 0

lemma segment_eq_segmentLoop (buf : List Nat) (n : Nat) :
    segment buf n = segmentLoop buf n 0 :=
  segmentLoopFuel_eq buf n n 0 (by omega)

/-- The bytes of the slice `(off, len)` of the buffer, as handed to
`dump_inotify_event`. -/
def sliceAt (buf : List Nat) (off len : Nat) : List Nat := (buf.drop off).take len

/-- The byte slices dispatched by one pass of the inner loop, in order. -/
def segSlices (buf : List Nat) (n : Nat) : List (List Nat) :=
  (segment buf n).map (fun p => sliceAt buf p.1 p.2)

/-- One `struct inotify_event` as a structured value: `wd`, `mask` and
`cookie` as 32-bit patterns and the raw name bytes (of length `len`). -/
structure RawEvent where
  wd : Nat
  mask : Nat
  cookie : Nat
  name : List Nat
deriving DecidableEq

/-- The four little-endian bytes of a 32-bit value. -/
def u32le (x : Nat) : List Nat :=
  [x % 256, x / 256 % 256, x / 65536 % 256, x / 16777216 % 256]

/-- The 16 header bytes of an event: `wd`, `mask`, `cookie`, `len`. -/
def headerBytes (e : RawEvent) : List Nat :=
  u32le e.wd ++ u32le e.mask ++ u32le e.cookie ++ u32le e.name.length

/-- The wire encoding of one event: header followed by the name bytes. -/
def encode (e : RawEvent) : List Nat := headerBytes e ++ e.name

/-- Concatenation of the encodings of a list of events, as delivered by one
`read` from the inotify descriptor. -/
def encodeEvents : List RawEvent → List Nat
  | [] => []
  | e :: es => encode e ++ encodeEvents es

/-- A well-formed event: field values fit in 32 bits, the name fits the
kernel's `NAME_MAX` bound, and all name bytes are byte values. -/
def validEvent (e : RawEvent) : Prop :=
  e.wd < 4294967296 ∧ e.mask < 4294967296 ∧ e.cookie < 4294967296 ∧
    e.name.length ≤ 255 ∧ ∀ b ∈ e.name, b < 256

instance (e : RawEvent) : Decidable (validEvent e) := by
  unfold validEvent
  infer_instance

/-- The `(offset, length)` boundaries of consecutive records laid out starting
at `off`: each record occupies `headerSize + name-length` bytes. -/
def boundaries : Nat → List RawEvent → List (Nat × Nat)
  | _, [] => []
  | off, e :: es =>
    (off, headerSize + e.name.length) :: boundaries (off + (headerSize + e.name.length)) es

/-- Outcome of one `read(inotifyFd, buffer, minBufferSize)` call: either it
succeeds leaving the buffer holding `buf` with return value `n` (and `errno`
unchanged), or it fails returning -1 with `errno` set to `e`. -/
inductive ReadOutcome where
  | success (buf : List Nat) (n : Nat)
  | fail (e : Nat)
deriving DecidableEq

/-- What the outer loop observes on one iteration: either the `while`
condition sees the cancellation flag set, or the flag is clear and the
`read` call completes with the given outcome. -/
inductive StepInput where
  | cancelled
  | read (o : ReadOutcome)
deriving DecidableEq

/-- Mutable state of `main` relevant to the loop: the thread `errno`, the
`bytesRead` variable, and the records dispatched to the reporter so far. -/
structure LoopState where
  errno : Nat
  bytesRead : Int
  dispatched : List (List Nat)
deriving DecidableEq

/-- Effect of one completed `read` (source lines 121-140): on failure set
`errno` and `bytesRead := -1`, continuing exactly when `errno == EINTR`;
on success with fewer bytes than one header, `break`; otherwise dispatch
every record the inner loop finds and keep running.  The returned `Bool` is
true when the loop keeps running. -/
def stepRead (s : LoopState) : ReadOutcome → LoopState × Bool
  | .fail e => ({ s with errno := e, bytesRead := -1 }, e == EINTR)
  | .success buf n =>
    if n < headerSize then
      ({ s with bytesRead := (n : Int) }, false)
    else
      ({ s with bytesRead := (n : Int), dispatched := s.dispatched ++ segSlices buf n }, true)

/-- The outer `while (!gblExitRequested)` loop (source lines 115-141), run
against a script of observations.  Returns the final state and whether the
loop exited (`true`) or the script ran out with the loop still running
(`false`). -/
def runLoop (s : LoopState) : List StepInput → LoopState × Bool
  | [] => (s, false)
  | .cancelled :: _ => (s, true)
  | .read o :: rest =>
    match stepRead s o with
    | (s', true) => runLoop s' rest
    | (s', false) => (s', true)

/-- The post-loop error reporting of `main` (source lines 143-156): the exit
code is 1 exactly when `errno != EINTR` and either `bytesRead < 0` or
`bytesRead` differs from `sizeof(struct inotify_event)`. -/
def computeFailure (errno : Nat) (bytesRead : Int) : Nat :=
  if errno ≠ EINTR then
    if bytesRead < 0 then 1
    else if bytesRead ≠ (headerSize : Int) then 1
    else 0
  else 0

/-- Observable outcome of running `main` from loop entry to `return`:
exit code, dispatched records, cleanup-call counts (source lines 159-160
run unconditionally), and whether the loop exited. -/
structure ProgramResult where
  exitCode : Nat
  dispatched : List (List Nat)
  removeWatchCalls : Nat
  closeCalls : Nat
  exitedLoop : Bool
deriving DecidableEq

/-- `main` from loop entry onward: run the loop on the script, then the
post-loop reporting and the unconditional cleanup. -/
def runProgram (errno0 : Nat) (br0 : Int) (script : List StepInput) : ProgramResult :=
  let r := runLoop ⟨errno0, br0, []⟩ script
  { exitCode := computeFailure r.1.errno r.1.bytesRead
    dispatched := r.1.dispatched
    removeWatchCalls := 1
    closeCalls := 1
    exitedLoop := r.2 }

/-- The `codes` map literal of `dump_inotify_event`, as the `(flag, name)`
pairs in their declaration order in the source (lines 34-49), with the
numeric values of the inotify flags. -/
def codesDecl : List (Nat × String) :=
  [(1, "IN_ACCESS"), (4, "IN_ATTRIB"), (8, "IN_CLOSE_WRITE"), (16, "IN_CLOSE_NOWRITE"),
   (256, "IN_CREATE"), (512, "IN_DELETE"), (1024, "IN_DELETE_SELF"), (2, "IN_MODIFY"),
   (2048, "IN_MOVE_SELF"), (64, "IN_MOVED_FROM"), (128, "IN_MOVED_TO"), (32, "IN_OPEN"),
   (32768, "IN_IGNORED"), (1073741824, "IN_ISDIR"), (16384, "IN_Q_OVERFLOW"),
   (8192, "IN_UNMOUNT")]

/-- `std::map` insertion: keep the association list sorted by key ascending;
an existing key is left untouched. -/
def mapInsert (k : Nat) (v : String) : List (Nat × String) → List (Nat × String)
  | [] => [(k, v)]
  | p :: t =>
    if k < p.1 then (k, v) :: p :: t
    else if k = p.1 then p :: t
    else p :: mapInsert k v t

/-- Construction of a `std::map` from an initializer list: insert the pairs
in declaration order. -/
def buildMap (l : List (Nat × String)) : List (Nat × String) :=
  l.foldl (fun m p => mapInsert p.1 p.2 m) []

/-- The `codes` map as `std::map` stores it: iteration order is ascending
key order, not declaration order. -/
def codesMap : List (Nat × String) := buildMap codesDecl

/-- The category names printed for `mask` by the loop over `codes`
(source lines 61-67): iterate the map, printing the name of every entry
whose flag bit-intersects the mask. -/
def reportedNames (mask : Nat) : List String :=
  (codesMap.filter (fun p => mask &&& p.1 != 0)).map Prod.snd

/-- `operator<<(std::ostream, const char *)` applied to `iNotifyEvent->name`:
the bytes from `off` up to (excluding) the first 0 byte. -/
def cString (buf : List Nat) (off : Nat) : List Nat :=
  (buf.drop off).takeWhile (fun b => b != 0)

/-- Everything `dump_inotify_event` prints for the record at offset `off` of
the buffer (source lines 53-67).  Note the name is printed unconditionally,
as the C string starting at the name field. -/
structure DumpedEvent where
  wd : Nat
  mask : Nat
  cookie : Nat
  len : Nat
  name : List Nat
  maskNames : List String
deriving DecidableEq

/-- The decoder: `dump_inotify_event` on the record at offset `off`. -/
def dump_inotify_event (buf : List Nat) (off : Nat) : DumpedEvent :=
  { wd := readU32 buf off
    mask := readU32 buf (off + 4)
    cookie := readU32 buf (off + 8)
    len := readU32 buf (off + 12)
    name := cString buf (off + headerSize)
    maskNames := reportedNames (readU32 buf (off + 4)) }

/-- Concrete events used as witness inputs: one event with a two-byte padded
name and one with no name. -/
def wEvents : List RawEvent := [⟨1, 2, 0, [65, 66, 0, 0]⟩, ⟨1, 256, 0, []⟩]

/-- Buffer for the short-trailing-fragment scenario: one complete 16-byte
record, then a 4-byte fragment; `bytesRead = 20` while the rest of the
allocation is zero-filled. -/
def fragBuf : List Nat := encode ⟨1, 2, 0, []⟩ ++ [1, 2, 3, 4] ++ List.replicate 12 0

/-- Two name-less records (32 bytes total), e.g. two events on a watched file. -/
def twoEvents : List RawEvent := [⟨1, 256, 0, []⟩, ⟨1, 512, 0, []⟩]

/-- Buffer holding the encodings of `twoEvents`. -/
def twoRecBuf : List Nat := encodeEvents twoEvents

/-- Buffer for the empty-name scenario: a record with `len = 0` immediately
followed by a record whose first byte (low byte of its `wd`) is nonzero. -/
def lenZeroBuf : List Nat := encode ⟨1, 32, 0, []⟩ ++ encode ⟨5, 2, 0, []⟩

/-- A single event with name byte 65 followed by one NUL pad byte. -/
def wNameEvent : RawEvent := ⟨1, 2, 0, [65, 0]⟩

lemma length_u32le (x : Nat) : (u32le x).length = 4 := by
  simp [u32le]

lemma byteAt_append (pre l : List Nat) (i : Nat) :
    byteAt (pre ++ l) (pre.length + i) = byteAt l i := by
  unfold byteAt
  rw [List.getElem?_append_right (Nat.le_add_right _ _), Nat.add_sub_cancel_left]

lemma readU32_append (pre l : List Nat) (k : Nat) :
    readU32 (pre ++ l) (pre.length + k) = readU32 l k := by
  unfold readU32
  rw [show pre.length + k + 1 = pre.length + (k + 1) by omega,
      show pre.length + k + 2 = pre.length + (k + 2) by omega,
      show pre.length + k + 3 = pre.length + (k + 3) by omega,
      byteAt_append, byteAt_append, byteAt_append, byteAt_append]

lemma readU32_u32le (x : Nat) (t : List Nat) (h : x < 4294967296) :
    readU32 (u32le x ++ t) 0 = x := by
  simp [readU32, u32le, byteAt]
  omega

lemma headerBytes_length (e : RawEvent) : (headerBytes e).length = headerSize := by
  simp [headerBytes, u32le, headerSize]

lemma encode_length (e : RawEvent) : (encode e).length = headerSize + e.name.length := by
  simp [encode, headerBytes, u32le, headerSize]
  omega

/-- Reading the `len` field of the header of an encoded event embedded in a
larger buffer recovers the name length. -/
lemma readU32_len_field (pre rest : List Nat) (e : RawEvent)
    (h : e.name.length < 4294967296) :
    readU32 (pre ++ (encode e ++ rest)) (pre.length + 12) = e.name.length := by
  rw [readU32_append]
  have hx : encode e ++ rest =
      (u32le e.wd ++ u32le e.mask ++ u32le e.cookie) ++
        (u32le e.name.length ++ (e.name ++ rest)) := by
    simp [encode, headerBytes]
  rw [hx]
  have h12 : (u32le e.wd ++ u32le e.mask ++ u32le e.cookie).length = 12 := by
    simp [u32le]
  rw [show (12 : Nat) = (u32le e.wd ++ u32le e.mask ++ u32le e.cookie).length + 0 by
        rw [h12]]
  rw [readU32_append, readU32_u32le _ _ h]

/-- The inner loop, started at the boundary of a run of validly encoded
records that exactly fill the rest of the buffer, visits exactly the record
boundaries. -/
lemma segmentLoop_encode (es : List RawEvent) :
    ∀ pre : List Nat, (∀ e ∈ es, validEvent e) →
      segmentLoop (pre ++ encodeEvents es) (pre.length + (encodeEvents es).length)
          pre.length
        = boundaries pre.length es := by
  induction es with
  | nil =>
    intro pre _
    rw [segmentLoop]
    simp [encodeEvents, boundaries]
  | cons e es ih =>
    intro pre h
    have hv : validEvent e := h e (by simp)
    have hlen : e.name.length < 4294967296 := by
      have := hv.2.2.2.1
      omega
    have hcons : encodeEvents (e :: es) = encode e ++ encodeEvents es := rfl
    have hrl : recordLen (pre ++ encodeEvents (e :: es)) pre.length
        = headerSize + e.name.length := by
      unfold recordLen
      rw [hcons, readU32_len_field pre (encodeEvents es) e hlen]
    have hclen : (encodeEvents (e :: es)).length
        = (headerSize + e.name.length) + (encodeEvents es).length := by
      rw [hcons]
      simp [encode_length]
    have hcond : pre.length < pre.length + (encodeEvents (e :: es)).length := by
      rw [hclen]
      unfold headerSize
      omega
    rw [segmentLoop, dif_pos hcond, hrl]
    have hpre : pre.length + (headerSize + e.name.length) = (pre ++ encode e).length := by
      simp [encode_length]
    have hbuf : pre ++ encodeEvents (e :: es) = (pre ++ encode e) ++ encodeEvents es := by
      rw [hcons]
      simp
    have hn : pre.length + (encodeEvents (e :: es)).length
        = (pre ++ encode e).length + (encodeEvents es).length := by
      rw [hclen]
      simp [encode_length]
      omega
    rw [show boundaries pre.length (e :: es)
        = (pre.length, headerSize + e.name.length)
          :: boundaries (pre.length + (headerSize + e.name.length)) es from rfl]
    congr 1
    rw [hpre, hbuf, hn]
    exact ih (pre ++ encode e) (fun x hx => h x (by simp [hx]))

/-- Extracting the byte slices at the record boundaries of a run of encoded
records recovers the encodings themselves. -/
lemma boundaries_map_slice (es : List RawEvent) :
    ∀ pre : List Nat,
      (boundaries pre.length es).map
          (fun p => sliceAt (pre ++ encodeEvents es) p.1 p.2) = es.map encode := by
  induction es with
  | nil =>
    intro pre
    simp [boundaries]
  | cons e es ih =>
    intro pre
    have hcons : encodeEvents (e :: es) = encode e ++ encodeEvents es := rfl
    rw [show boundaries pre.length (e :: es)
        = (pre.length, headerSize + e.name.length)
          :: boundaries (pre.length + (headerSize + e.name.length)) es from rfl]
    rw [List.map_cons]
    congr 1
    · show sliceAt (pre ++ encodeEvents (e :: es)) pre.length
          (headerSize + e.name.length) = encode e
      unfold sliceAt
      rw [hcons, List.drop_left, ← encode_length e]
      exact List.take_left _ _
    · have hpre : pre.length + (headerSize + e.name.length)
          = (pre ++ encode e).length := by
        simp [encode_length]
      have hbuf : pre ++ encodeEvents (e :: es)
          = (pre ++ encode e) ++ encodeEvents es := by
        rw [hcons]
        simp
      rw [hpre, hbuf]
      exact ih (pre ++ encode e)

/-- One read delivering a run of validly encoded records dispatches exactly
their encodings, in order. -/
lemma segSlices_encode (es : List RawEvent) (h : ∀ e ∈ es, validEvent e) :
    segSlices (encodeEvents es) (encodeEvents es).length = es.map encode := by
  unfold segSlices
  rw [segment_eq_segmentLoop]
  have h0 := segmentLoop_encode es [] h
  simp only [List.nil_append, List.length_nil, Nat.zero_add] at h0
  rw [h0]
  have h1 := boundaries_map_slice es []
  simp only [List.nil_append, List.length_nil] at h1
  exact h1

/-- Every record the inner loop dispatches starts strictly before the buffer
end (the loop condition), whatever bytes the buffer holds. -/
lemma segmentLoop_mem_lt (buf : List Nat) (n : Nat) :
    ∀ gas off, n - off ≤ gas → ∀ p ∈ segmentLoop buf n off, off ≤ p.1 ∧ p.1 < n := by
  intro gas
  induction gas with
  | zero =>
    intro off h p hp
    rw [segmentLoop] at hp
    have hge : ¬ off < n := by omega
    simp [hge] at hp
  | succ gas ih =>
    intro off h p hp
    rw [segmentLoop] at hp
    by_cases hlt : off < n
    · rw [dif_pos hlt] at hp
      rcases List.mem_cons.mp hp with hp | hp
      · subst hp
        exact ⟨Nat.le_refl _, hlt⟩
      · have := recordLen_pos buf off
        have h2 := ih (off + recordLen buf off) (by omega) p hp
        exact ⟨by omega, h2.2⟩
    · simp [dif_neg hlt] at hp

/-- The cursor value at which the inner loop stops is at or past the buffer
end: the loop runs until `buffer < bufferEnd` fails. -/
lemma segmentEnd_ge (buf : List Nat) (n : Nat) :
    ∀ gas off, n - off ≤ gas → n ≤ segmentEnd buf n off := by
  intro gas
  induction gas with
  | zero =>
    intro off h
    rw [segmentEnd]
    have hge : ¬ off < n := by omega
    rw [dif_neg hge]
    omega
  | succ gas ih =>
    intro off h
    rw [segmentEnd]
    by_cases hlt : off < n
    · rw [dif_pos hlt]
      have := recordLen_pos buf off
      exact ih _ (by omega)
    · rw [dif_neg hlt]
      omega

/-- The `codes` map, evaluated: `std::map` iterates in ascending key order. -/
lemma codesMap_eq :
    codesMap =
      [(1, "IN_ACCESS"), (2, "IN_MODIFY"), (4, "IN_ATTRIB"), (8, "IN_CLOSE_WRITE"),
       (16, "IN_CLOSE_NOWRITE"), (32, "IN_OPEN"), (64, "IN_MOVED_FROM"),
       (128, "IN_MOVED_TO"), (256, "IN_CREATE"), (512, "IN_DELETE"),
       (1024, "IN_DELETE_SELF"), (2048, "IN_MOVE_SELF"), (8192, "IN_UNMOUNT"),
       (16384, "IN_Q_OVERFLOW"), (32768, "IN_IGNORED"),
       (1073741824, "IN_ISDIR")] := by
  rfl

/-- The stored map holds exactly the declared `(flag, name)` pairs, reordered. -/
lemma codesMap_perm : codesMap.Perm codesDecl := by
  rw [codesMap_eq]
  unfold codesDecl
  decide

/-- The map's keys are strictly ascending. -/
lemma codesMap_sorted :
    codesMap.Pairwise (fun a b : Nat × String => a.1 < b.1) := by
  rw [codesMap_eq]
  decide

/-- `takeWhile` cuts exactly at the first element failing the predicate. -/
lemma takeWhile_all_append (p : Nat → Bool) :
    ∀ (l₁ : List Nat) (a : Nat) (l₂ : List Nat),
      (∀ b ∈ l₁, p b = true) → p a = false → (l₁ ++ a :: l₂).takeWhile p = l₁ := by
  intro l₁
  induction l₁ with
  | nil =>
    intro a l₂ _ ha
    simp [List.takeWhile_cons, ha]
  | cons x xs ih =>
    intro a l₂ h ha
    have hx : p x = true := h x (by simp)
    simp only [List.cons_append, List.takeWhile_cons, hx, if_true]
    rw [ih a l₂ (fun b hb => h b (by simp [hb])) ha]

lemma boundaries_length (es : List RawEvent) :
    ∀ off, (boundaries off es).length = es.length := by
  induction es with
  | nil => intro off; rfl
  | cons e es ih => intro off; simp [boundaries, ih]

lemma encodeEvents_length_ge (e : RawEvent) (es : List RawEvent) :
    headerSize ≤ (encodeEvents (e :: es)).length := by
  show headerSize ≤ (encode e ++ encodeEvents es).length
  simp [encode_length]
  omega

lemma runLoop_nil (s : LoopState) : runLoop s [] = (s, false) := rfl

lemma runLoop_cancelled (s : LoopState) (rest : List StepInput) :
    runLoop s (.cancelled :: rest) = (s, true) := rfl

lemma runLoop_fail_eintr (s : LoopState) (rest : List StepInput) :
    runLoop s (.read (.fail EINTR) :: rest)
      = runLoop { s with errno := EINTR, bytesRead := -1 } rest := by
  simp [runLoop, stepRead]

lemma runLoop_fail_other (s : LoopState) (e : Nat) (he : e ≠ EINTR)
    (rest : List StepInput) :
    runLoop s (.read (.fail e) :: rest)
      = ({ s with errno := e, bytesRead := -1 }, true) := by
  have hb : (e == EINTR) = false := by
    simp [he]
  simp [runLoop, stepRead, hb]

lemma runLoop_success_small (s : LoopState) (buf : List Nat) (n : Nat)
    (h : n < headerSize) (rest : List StepInput) :
    runLoop s (.read (.success buf n) :: rest)
      = ({ s with bytesRead := (n : Int) }, true) := by
  simp [runLoop, stepRead, h]

lemma runLoop_success_big (s : LoopState) (buf : List Nat) (n : Nat)
    (h : ¬ n < headerSize) (rest : List StepInput) :
    runLoop s (.read (.success buf n) :: rest)
      = runLoop
          { s with bytesRead := (n : Int),
                   dispatched := s.dispatched ++ segSlices buf n } rest := by
  simp [runLoop, stepRead, h]

lemma runProgram_eq (e0 : Nat) (br0 : Int) (script : List StepInput) :
    runProgram e0 br0 script
      = { exitCode := computeFailure (runLoop ⟨e0, br0, []⟩ script).1.errno
            (runLoop ⟨e0, br0, []⟩ script).1.bytesRead
          dispatched := (runLoop ⟨e0, br0, []⟩ script).1.dispatched
          removeWatchCalls := 1
          closeCalls := 1
          exitedLoop := (runLoop ⟨e0, br0, []⟩ script).2 } := rfl

lemma computeFailure_eintr (b : Int) : computeFailure EINTR b = 0 := by
  simp [computeFailure]

lemma computeFailure_neg (e : Nat) (he : e ≠ EINTR) (b : Int) (hb : b < 0) :
    computeFailure e b = 1 := by
  simp [computeFailure, he, hb]

lemma runProgram_dispatched (e0 : Nat) (br0 : Int) (script : List StepInput) :
    (runProgram e0 br0 script).dispatched
      = (runLoop ⟨e0, br0, []⟩ script).1.dispatched := rfl

/-- Claim C1: for every buffer consisting of K concatenated valid RawEvent
encodings (K ≥ 0) whose total length equals the number of bytes read, the
segmentation loop yields exactly K record slices, each exactly at the
original record boundaries (header plus name-length bytes), and dispatches
them to the reporter in the original concatenation order. -/
theorem C1_segmentation_exact (es : List RawEvent) (h : ∀ e ∈ es, validEvent e) :
    segmentLoop (encodeEvents es) (encodeEvents es).length 0 = boundaries 0 es
    ∧ (segmentLoop (encodeEvents es) (encodeEvents es).length 0).length = es.length
    ∧ segSlices (encodeEvents es) (encodeEvents es).length = es.map encode
    ∧ (runProgram 0 0
        [.read (.success (encodeEvents es) (encodeEvents es).length)]).dispatched
        = es.map encode := by
  have h0 := segmentLoop_encode es [] h
  simp only [List.nil_append, List.length_nil, Nat.zero_add] at h0
  refine ⟨h0, ?_, segSlices_encode es h, ?_⟩
  · rw [h0, boundaries_length]
  · cases es with
    | nil => rfl
    | cons e es' =>
      have hge := encodeEvents_length_ge e es'
      rw [runProgram_dispatched,
          runLoop_success_big _ _ _ (by omega) [], runLoop_nil]
      simpa using segSlices_encode (e :: es') h

theorem C1_witness :
    (∀ e ∈ wEvents, validEvent e)
    ∧ segSlices (encodeEvents wEvents) (encodeEvents wEvents).length
        = wEvents.map encode :=
  ⟨by decide, (C1_segmentation_exact wEvents (by decide)).2.2.1⟩

/-- Claim C10: the inner segmentation loop terminates for every buffer and
every byte count, because each iteration advances the cursor by
`headerSize + len`, which is at least `headerSize`; consequently `n` (plus
any surplus) iterations of fuel always reproduce the loop's value. -/
theorem C10_inner_loop_terminates (buf : List Nat) (n : Nat) :
    (∀ off, headerSize ≤ recordLen buf off)
    ∧ ∀ k, segmentLoopFuel buf n (n + k) 0 = segmentLoop buf n 0 := by
  refine ⟨fun off => headerSize_le_recordLen buf off, fun k => ?_⟩
  exact segmentLoopFuel_eq buf n (n + k) 0 (by omega)

/-- Claim C2 counterexample: an iteration whose read succeeds with
`bytesRead == 0` does not leave the loop running — the `bytesRead <
sizeof(struct inotify_event)` branch breaks out of the loop. -/
theorem C2_counterexample :
    ¬ ((runLoop ⟨0, 0, []⟩ [.read (.success [] 0)]).2 = false) := by
  decide

/-- Claim C2 amended: a successful read with `bytesRead == 0` dispatches zero
events, but the loop exits through the short-read break (0 is fewer bytes
than one header) instead of remaining running. -/
theorem C2_zero_read_exits (s : LoopState) (buf : List Nat) (rest : List StepInput) :
    runLoop s (.read (.success buf 0) :: rest) = ({ s with bytesRead := 0 }, true) :=
  runLoop_success_small s buf 0 (by decide) rest

/-- Claim C3 counterexample: with one complete record and a 4-byte trailing
fragment (`bytesRead = 20`), the inner loop dispatches two records instead
of stopping after the one complete record: the fragment's header is read
from bytes at and beyond the end of the read region, and the cursor is
advanced to 32, past the buffer end. -/
theorem C3_counterexample :
    segment fragBuf 20 = [(0, 16), (16, 16)]
    ∧ segmentLoop fragBuf 20 0 = [(0, 16), (16, 16)]
    ∧ (segmentLoop fragBuf 20 0).length ≠ 1
    ∧ segmentEnd fragBuf 20 0 = 32 := by
  have h1 : segment fragBuf 20 = [(0, 16), (16, 16)] := by decide
  have h2 : segmentLoop fragBuf 20 0 = [(0, 16), (16, 16)] :=
    (segment_eq_segmentLoop fragBuf 20).symm.trans h1
  have h3 : segmentEnd fragBuf 20 0 = 32 := by
    rw [← segmentEndFuel_eq fragBuf 20 20 0 (by omega)]
    decide
  refine ⟨h1, h2, ?_, h3⟩
  rw [h2]
  decide

/-- Claim C3 amended: the loop does not skip a short trailing fragment; it
yields a slice at every cursor position strictly inside the read region
(including a fragment, whose claimed length is taken from unchecked bytes),
and it stops only once the unchecked advancement carries the cursor to or
past the buffer end. -/
theorem C3_fragment_dispatched (buf : List Nat) (n : Nat) (h : 0 < n) :
    segmentLoop buf n 0 ≠ []
    ∧ (∀ p ∈ segmentLoop buf n 0, p.1 < n)
    ∧ n ≤ segmentEnd buf n 0 := by
  refine ⟨?_, fun p hp => (segmentLoop_mem_lt buf n n 0 (by omega) p hp).2,
    segmentEnd_ge buf n n 0 (by omega)⟩
  rw [segmentLoop, dif_pos h]
  simp

theorem C3_witness :
    0 < 20 ∧ 20 ≤ segmentEnd fragBuf 20 0 :=
  ⟨by decide, (C3_fragment_dispatched fragBuf 20 (by decide)).2.2⟩

/-- Claim C4 (code bug): after an interrupted read leaves `errno == EINTR`,
a subsequent successful read shorter than one header makes the program exit
with code 0 and no diagnostic — the post-loop protocol-violation report is
suppressed by the stale errno — although the identical short read with any
other leftover errno exits 1 as the claim requires. -/
theorem C4_stale_errno_masks_violation :
    runProgram 0 0 [.read (.fail EINTR), .read (.success [1, 0, 0, 0, 0, 0, 0, 0] 8)]
      = { exitCode := 0, dispatched := [], removeWatchCalls := 1, closeCalls := 1,
          exitedLoop := true }
    ∧ runProgram 0 0 [.read (.success [1, 0, 0, 0, 0, 0, 0, 0] 8)]
      = { exitCode := 1, dispatched := [], removeWatchCalls := 1, closeCalls := 1,
          exitedLoop := true } := by
  decide

/-- Claim C5: when the cancellation flag becomes set exactly during a read
that fails with EINTR, the loop observes it on re-entering the `while`
condition and exits cleanly: exit code 0, no events dispatched, and the
unconditional cleanup invokes removeWatch and close exactly once each. -/
theorem C5_cancel_during_interrupted (e0 : Nat) (b0 : Int) :
    runProgram e0 b0 [.read (.fail EINTR), .cancelled]
      = { exitCode := 0, dispatched := [], removeWatchCalls := 1, closeCalls := 1,
          exitedLoop := true } := by
  rw [runProgram_eq, runLoop_fail_eintr, runLoop_cancelled]
  simp [computeFailure_eintr]

/-- Claim C6 (code bug): cancellation observed at the top of the loop right
after a successful read of two complete events (32 bytes) exits with code 1
— the post-loop code compares `bytesRead` with `!= sizeof` rather than
`< sizeof`, so a clean cancellation after a multi-event read is reported as
"Unexpected number of bytes" — although the claim requires exit code 0 for
every cancellation-caused termination. -/
theorem C6_cancel_after_big_read_exits_1 :
    runProgram 0 0 [.read (.success twoRecBuf 32), .cancelled]
      = { exitCode := 1, dispatched := twoEvents.map encode,
          removeWatchCalls := 1, closeCalls := 1, exitedLoop := true } := by
  decide

/-- Claim C7: for read outcomes [Interrupted, Interrupted, Success(2 events),
IoError] with the cancellation flag unset during the interruptions, the loop
retries immediately twice (remaining running with nothing dispatched),
dispatches exactly the 2 events in delivery order before the next read, then
terminates with the error recorded and exit code 1. -/
theorem C7_retry_dispatch_fail (e1 e2 : RawEvent)
    (h1 : validEvent e1) (h2 : validEvent e2) (err : Nat) (he : err ≠ EINTR) :
    (runLoop ⟨0, 0, []⟩ [.read (.fail EINTR)]).2 = false
    ∧ runLoop ⟨0, 0, []⟩ [.read (.fail EINTR), .read (.fail EINTR)]
        = (⟨EINTR, -1, []⟩, false)
    ∧ runLoop ⟨0, 0, []⟩
        [.read (.fail EINTR), .read (.fail EINTR),
         .read (.success (encodeEvents [e1, e2]) (encodeEvents [e1, e2]).length)]
        = (⟨EINTR, ((encodeEvents [e1, e2]).length : Int),
            [encode e1, encode e2]⟩, false)
    ∧ runProgram 0 0
        [.read (.fail EINTR), .read (.fail EINTR),
         .read (.success (encodeEvents [e1, e2]) (encodeEvents [e1, e2]).length),
         .read (.fail err)]
        = { exitCode := 1, dispatched := [encode e1, encode e2],
            removeWatchCalls := 1, closeCalls := 1, exitedLoop := true } := by
  have hval : ∀ e ∈ [e1, e2], validEvent e := by
    intro e hm
    rcases List.mem_cons.mp hm with hm | hm
    · subst hm; exact h1
    · rcases List.mem_cons.mp hm with hm | hm
      · subst hm; exact h2
      · simp at hm
  have hge : ¬ (encodeEvents [e1, e2]).length < headerSize := by
    have := encodeEvents_length_ge e1 [e2]
    omega
  have hsl : segSlices (encodeEvents [e1, e2]) (encodeEvents [e1, e2]).length
      = [encode e1, encode e2] := by
    rw [segSlices_encode [e1, e2] hval]
    rfl
  refine ⟨?_, ?_, ?_, ?_⟩
  · rw [runLoop_fail_eintr, runLoop_nil]
  · rw [runLoop_fail_eintr, runLoop_fail_eintr, runLoop_nil]
  · rw [runLoop_fail_eintr, runLoop_fail_eintr,
        runLoop_success_big _ _ _ hge [], runLoop_nil]
    simp [hsl]
  · rw [runProgram_eq, runLoop_fail_eintr, runLoop_fail_eintr,
        runLoop_success_big _ _ _ hge _,
        runLoop_fail_other _ err he []]
    simp [hsl, computeFailure_neg err he (-1) (by omega)]

theorem C7_witness :
    validEvent ⟨1, 256, 0, ([] : List Nat)⟩ ∧ validEvent ⟨1, 512, 0, ([] : List Nat)⟩
    ∧ (5 : Nat) ≠ EINTR
    ∧ runProgram 0 0
        [.read (.fail EINTR), .read (.fail EINTR),
         .read (.success (encodeEvents twoEvents) (encodeEvents twoEvents).length),
         .read (.fail 5)]
        = { exitCode := 1,
            dispatched := [encode ⟨1, 256, 0, []⟩, encode ⟨1, 512, 0, []⟩],
            removeWatchCalls := 1, closeCalls := 1, exitedLoop := true } :=
  ⟨by decide, by decide, by decide,
    (C7_retry_dispatch_fail ⟨1, 256, 0, []⟩ ⟨1, 512, 0, []⟩ (by decide) (by decide)
      5 (by decide)).2.2.2⟩

/-- Claim C8 counterexample: for mask 6 (`IN_MODIFY | IN_ATTRIB`) the names
are reported as [IN_MODIFY, IN_ATTRIB] — ascending flag value, the iteration
order of `std::map` — whereas the declaration order of the lookup-table
literal would give [IN_ATTRIB, IN_MODIFY]. -/
theorem C8_counterexample :
    reportedNames 6 ≠ (codesDecl.filter (fun p => 6 &&& p.1 != 0)).map Prod.snd := by
  decide

/-- Claim C8 amended: for every decoded event the category names reported for
its mask are iterated in strictly ascending flag-value order (the `std::map`
key order), deterministically; they are a permutation of the declared
`(flag, name)` pairs selected by the mask, not in declaration order. -/
theorem C8_sorted_iteration (mask : Nat) :
    ((codesMap.filter (fun p => mask &&& p.1 != 0)).map Prod.fst).Pairwise (· < ·)
    ∧ (reportedNames mask).Perm
        ((codesDecl.filter (fun p => mask &&& p.1 != 0)).map Prod.snd) := by
  constructor
  · exact List.pairwise_map.mpr (codesMap_sorted.filter _)
  · exact (codesMap_perm.filter _).map Prod.snd

/-- Claim C9 counterexample: the record at offset 0 of `lenZeroBuf` has
name-length 0, yet `dump_inotify_event` reports a nonempty name — the
`name` field is printed unconditionally, reading the bytes after the header
(here the next record's `wd`) up to the first NUL. -/
theorem C9_counterexample :
    (dump_inotify_event lenZeroBuf 0).len = 0
    ∧ (dump_inotify_event lenZeroBuf 0).name ≠ [] := by
  decide

/-- Claim C9 amended: the decoder prints the C string at the name field
unconditionally.  For a record whose name field holds nonzero bytes followed
by a NUL and padding, this reports exactly the name with the trailing
padding trimmed (and such a record necessarily has name-length > 0); when
name-length == 0 the bytes beyond the record are still read and reported up
to the first NUL (see the counterexample). -/
theorem C9_name_trimmed (pre rest realName pad : List Nat) (e : RawEvent)
    (hv : validEvent e) (hname : e.name = realName ++ 0 :: pad)
    (hnz : ∀ b ∈ realName, (b != 0) = true) :
    (dump_inotify_event (pre ++ (encode e ++ rest)) pre.length).len = e.name.length
    ∧ (dump_inotify_event (pre ++ (encode e ++ rest)) pre.length).name = realName
    ∧ 0 < e.name.length := by
  have hlen : e.name.length < 4294967296 := by
    have := hv.2.2.2.1
    omega
  refine ⟨readU32_len_field pre rest e hlen, ?_, by rw [hname]; simp⟩
  show cString (pre ++ (encode e ++ rest)) (pre.length + headerSize) = realName
  unfold cString
  rw [List.drop_append headerSize]
  have hx : (encode e ++ rest).drop headerSize = e.name ++ rest := by
    rw [show encode e ++ rest = headerBytes e ++ (e.name ++ rest) by simp [encode],
        ← headerBytes_length e, List.drop_left]
  rw [hx, hname]
  rw [show (realName ++ 0 :: pad) ++ rest = realName ++ 0 :: (pad ++ rest) by simp]
  exact takeWhile_all_append _ realName 0 (pad ++ rest) hnz (by decide)

theorem C9_witness :
    validEvent wNameEvent
    ∧ wNameEvent.name = [65] ++ 0 :: []
    ∧ (dump_inotify_event ([] ++ (encode wNameEvent ++ [])) 0).name = [65] :=
  ⟨by decide, by decide,
    (C9_name_trimmed [] [] [65] [] wNameEvent (by decide) (by decide) (by decide)).2.1⟩

end MonitorFs
